import Mathlib

/-!
Shallow embedding of the Alma CKB scraper (src/Alma_CKB_Scraper_10_dev.py and
src/Alma_CKB_Scraper_11_dev.py) and proofs about its behavior.

The HTML document is modelled at the granularity of the BeautifulSoup queries
the code performs: a page is the list of its `rnsub` divs; each div carries the
text of its first `AlmaRNTag` span (if any) and its `<table>` elements; each
table carries the text of the nearest preceding `<h2>` (if any), the texts of
all of its `<th>` cells in document order, and, for each `<tr>` in document
order, the texts of its `<td>` cells. All extraction logic downstream of those
queries is translated from the Python source.
-/

namespace CKB

/-- A Python dict with string keys and values, modelled as an association list
in insertion order with distinct keys maintained by `dictInsert`. -/
abbrev Rec := List (String × String)

/-- Writing a value under a key into a name-keyed store (a Python dict, or a
directory of files): replace in place when the name exists, append otherwise. -/
def updateEntry {β : Type} (d : List (String × β)) (k : String) (v : β) :
    List (String × β) :=
  if d.any (fun p => p.1 == k) then
    d.map (fun p => if p.1 == k then (k, v) else p)
  else
    d ++ [(k, v)]

/-- Python `d[k] = v` / inclusion of a pair in a dict display: if the key is
already present its value is replaced in place (insertion order kept),
otherwise the pair is appended at the end. -/
def dictInsert (d : Rec) (k v : String) : Rec :=
  updateEntry d k v

/-- Python's `str.strip()` with no argument: remove whitespace from both ends
of the string (modelled structurally over the character list so that it
evaluates inside the kernel). -/
def pyStrip (s : String) : String :=
  ⟨((s.data.dropWhile Char.isWhitespace).reverse.dropWhile Char.isWhitespace).reverse⟩

/-- One `<table>` element as seen by the extractor's queries:
`prevH2` is `table.find_previous('h2')`'s text, `ths` the texts of
`table.find_all('th')`, and `trs` the per-`<tr>` lists of `<td>` texts of
`table.find_all('tr')`. -/
structure RawTable where
  prevH2 : Option String
  ths : List String
  trs : List (List String)
  deriving DecidableEq, Repr

/-- One `rnsub` div: `tagSpan` is the text of `div.find('span',
class_='AlmaRNTag')` when it matches, `tables` the div's `<table>` elements. -/
structure RnsubDiv where
  tagSpan : Option String
  tables : List RawTable
  deriving DecidableEq, Repr

/-- A parsed release-notes page: its `rnsub` divs in document order. -/
structure Doc where
  divs : List RnsubDiv
  deriving DecidableEq, Repr

/-- `week_info = week_info.text.strip() if week_info else "Unknown Week"`. -/
def weekLabel (d : RnsubDiv) : String :=
  match d.tagSpan with
  | some s => pyStrip s
  | none => "Unknown Week"

/-- `table_title = title_element.text.strip() if title_element else "Untitled Table"`. -/
def tableTitle (t : RawTable) : String :=
  match t.prevH2 with
  | some s => pyStrip s
  | none => "Untitled Table"

/-- The dict comprehension `{headers[i]: cells[i] for i in range(len(headers))}`.
Evaluating `cells[i]` raises `IndexError` when `i >= len(cells)`, so the
comprehension fails (returns `none`) as soon as an index is out of range. -/
def rowDict (headers cells : List String) : Option Rec :=
  (List.range headers.length).foldlM
    (fun d i =>
      match headers.get? i, cells.get? i with
      | some h, some c => some (dictInsert d h c)
      | _, _ => none)
    []

/-- Recursion companion of `rowDict`, walking the two lists in step; it is
proved equal to `rowDict` (`rowDict_eq_aux`) and is only used in proofs. -/
def rowDictAux (d : Rec) : List String → List String → Option Rec
  | [], _ => some d
  | _ :: _, [] => none
  | h :: hs, c :: cs => rowDictAux (dictInsert d h c) hs cs

/-- `row_data.update({'week_info': ..., 'source_url': ..., 'table_title': ...})`. -/
def addSynthetics (d : Rec) (week url title : String) : Rec :=
  dictInsert (dictInsert (dictInsert d "week_info" week) "source_url" url) "table_title" title

/-- One entry of the `extracted_tables` list: the dict
`{'headers': ..., 'rows': ..., 'table_title': ...}`. -/
structure PyTable where
  headers : List String
  rows : List Rec
  table_title : String
  deriving DecidableEq, Repr

/-- Builds the record for one data row, or fails where the Python raises:
`cells = [cell.text.strip() for cell in row.find_all('td')]` followed by the
dict comprehension and the synthetic-field update. -/
def buildRecord (headers : List String) (week url title : String)
    (tds : List String) : Option Rec :=
  (rowDict headers (tds.map pyStrip)).map
    (fun d => addSynthetics d week url title)

/-- The body of the per-table loop of `extract_tables` in
Alma_CKB_Scraper_10_dev.py: each row is wrapped in its own `try/except`, so a
row whose processing raises is logged and skipped while the rest of the table
survives; the table entry itself is always appended. -/
def processTable_v10 (week url : String) (t : RawTable) : PyTable :=
  let title := tableTitle t
  let headers := t.ths.map pyStrip
  let rows := t.trs.drop 1
  let table_data := rows.filterMap (fun tds => buildRecord headers week url title tds)
  { headers := headers ++ ["week_info", "source_url", "table_title"]
    rows := table_data
    table_title := title }

/-- The body of the per-table loop of `extract_tables` in
Alma_CKB_Scraper_11_dev.py: there is no per-row `try/except`, so the first row
whose processing raises aborts the whole table body; the `except` at table
granularity swallows the error and the table entry is never appended. -/
def processTable_v11 (week url : String) (t : RawTable) : Option PyTable :=
  let title := tableTitle t
  let headers := t.ths.map pyStrip
  let rows := t.trs.drop 1
  (rows.mapM (fun tds => buildRecord headers week url title tds)).map
    (fun table_data =>
      { headers := headers ++ ["week_info", "source_url", "table_title"]
        rows := table_data
        table_title := title })

/-- `extract_tables` of Alma_CKB_Scraper_10_dev.py over the modelled page. -/
def extract_tables_v10 (doc : Doc) (source_url : String) : List PyTable :=
  doc.divs.foldl
    (fun acc d => acc ++ d.tables.map (processTable_v10 (weekLabel d) source_url))
    []

/-- `extract_tables` of Alma_CKB_Scraper_11_dev.py over the modelled page. -/
def extract_tables_v11 (doc : Doc) (source_url : String) : List PyTable :=
  doc.divs.foldl
    (fun acc d => acc ++ d.tables.filterMap (processTable_v11 (weekLabel d) source_url))
    []

/-! ## Dataset writer (`save_tables`) -/

/-- A written CSV file at the granularity relevant here: a list of lines, each
line a list of cell texts (the header line first when pandas emits one). -/
abbrev CSV := List (List String)

/-- The columns of `pd.DataFrame(rows)` for a list of dicts: the union of the
dicts' keys in order of first appearance. -/
def dfColumns (rows : List Rec) : List String :=
  rows.foldl
    (fun cols r => r.foldl (fun cs p => if cs.contains p.1 then cs else cs ++ [p.1]) cols)
    []

/-- `pd.DataFrame(rows).to_csv(..., index=False)`: first line the DataFrame's
columns, then one line per record with its value in each column, a missing key
(`NaN`) serialized as the empty string. The Table's declared `headers` list is
not an input: pandas sees only the records. -/
def to_csv (rows : List Rec) : CSV :=
  let cols := dfColumns rows
  cols :: rows.map (fun r => cols.map (fun c => (r.lookup c).getD ""))

/-- Reading a written file back: first line as the column list, each further
line as a record pairing the columns with that line's values in order. -/
def parse_csv (csv : CSV) : Option (List String × List Rec) :=
  match csv with
  | [] => none
  | cols :: data => some (cols, data.map (fun vals => cols.zip vals))

/-- Result of `save_tables` in Alma_CKB_Scraper_10_dev.py: the files produced,
the `saved_count` accumulated by the loop, and the function's return value.
The Python function has no `return` statement, so it returns `None`. -/
structure SaveResult where
  files : List (String × CSV)
  saved_count : Nat
  ret : Option Nat
  deriving DecidableEq, Repr

/-- `save_tables` of Alma_CKB_Scraper_10_dev.py. Each iteration of
`for idx, table in enumerate(extracted_tables, 1)` builds the DataFrame from
`table['rows']`, writes `table_<idx>.csv`, and bumps `saved_count`; in this
model of a healthy filesystem the `except` branch is never taken. -/
def save_tables_v10 (extracted_tables : List PyTable) : SaveResult :=
  let st := extracted_tables.enum.foldl
    (fun acc it =>
      (acc.1 ++ [("table_" ++ toString (it.1 + 1) ++ ".csv", to_csv it.2.rows)],
       acc.2 + 1))
    (([] : List (String × CSV)), 0)
  { files := st.1, saved_count := st.2, ret := none }

/-- `save_tables` of Alma_CKB_Scraper_11_dev.py: same writing loop, but no
`saved_count` is kept and, again, nothing is returned. -/
def save_tables_v11 (extracted_tables : List PyTable) : List (String × CSV) :=
  extracted_tables.enum.foldl
    (fun acc it => acc ++ [("table_" ++ toString (it.1 + 1) ++ ".csv", to_csv it.2.rows)])
    []

/-! ## Archive manager (`manage_output_folders`, v11 only) -/

/-- The two slots under the base output directory. `none` models a directory
that does not exist yet; `some entries` an existing directory with the files
`entries` (name, content), listed in `os.listdir` enumeration order. -/
structure FS where
  current : Option (List (String × CSV))
  previous : Option (List (String × CSV))
  deriving DecidableEq, Repr

/-- `manage_output_folders` of Alma_CKB_Scraper_11_dev.py. Both slots are
created if absent (`os.makedirs(..., exist_ok=True)`). If `current` is
non-empty, the loop walks its entries removing any same-named file from the
`previous` slot; the `os.rename` sits after the loop body, so only the file
the loop variable last pointed at is actually moved. -/
def manage_output_folders (fs : FS) : FS :=
  let cur := fs.current.getD []
  let prev := fs.previous.getD []
  match cur with
  | [] => { current := some [], previous := some prev }
  | e :: es =>
    let prev2 := (e :: es).foldl
      (fun p q => if p.any (fun r => r.1 == q.1) then p.filter (fun r => r.1 != q.1) else p)
      prev
    let moved := (e :: es).getLast (by simp)
    { current := some ((e :: es).filter (fun r => r.1 != moved.1))
      previous := some (prev2 ++ [moved]) }

/-! ## Link resolver (`get_latest_month_url`) and the main pipeline -/

/-- The element found by `container.select_one(list_selector)`, carrying its
`href` attribute when present. -/
structure LinkEl where
  href : Option String
  deriving DecidableEq, Repr

/-- The element found by `soup.select_one(container_selector)` on the root
page, and the first link item inside it when one matches. -/
structure ContainerEl where
  item : Option LinkEl
  deriving DecidableEq, Repr

/-- The fetched root page, at the granularity of the two selector queries. -/
structure RootDoc where
  container : Option ContainerEl
  deriving DecidableEq, Repr

/-- `get_latest_month_url` after a successful fetch of the main page: `None`
when the container selector matches nothing, when no link item is found, or
when the link has no `href`; otherwise the link target verbatim. -/
def get_latest_month_url (root : RootDoc) : Option String :=
  match root.container with
  | none => none
  | some c =>
    match c.item with
    | some l =>
      match l.href with
      | some h => some h
      | none => none
    | none => none

/-- Outcome of one run of `main` in Alma_CKB_Scraper_11_dev.py: the files the
writer produced and the final state of the two archive slots. -/
structure RunResult where
  files : List (String × CSV)
  fs : FS
  deriving DecidableEq, Repr

/-- `main` of Alma_CKB_Scraper_11_dev.py, after config load and with fetching
modelled as a function from URL to parsed page. When `get_latest_month_url`
yields `None` the function logs and returns at once: nothing is fetched,
rotated, or written. Otherwise it extracts, rotates the slots, and writes the
tables into the `current` slot (overwriting same-named files). -/
def main_run (root : RootDoc) (fetch : String → Doc) (fs : FS) : RunResult :=
  match get_latest_month_url root with
  | none => { files := [], fs := fs }
  | some latest_url =>
    let tables := extract_tables_v11 (fetch latest_url) latest_url
    let fs2 := manage_output_folders fs
    let files := save_tables_v11 tables
    { files := files
      fs := { current := some (files.foldl (fun d f => updateEntry d f.1 f.2) (fs2.current.getD []))
              previous := fs2.previous } }

/-! ## Dictionary lemmas -/

theorem updateEntry_cons_ne {β : Type} (p : String × β) (d : List (String × β))
    (k : String) (v : β) (hp : p.1 ≠ k) :
    updateEntry (p :: d) k v = p :: updateEntry d k v := by
  by_cases h : d.any (fun q => q.1 == k) = true
  · simp [updateEntry, h, hp]
  · simp [updateEntry, h, hp]

theorem updateEntry_cons_eq {β : Type} (p : String × β) (d : List (String × β))
    (k : String) (v : β) (hp : p.1 = k) :
    updateEntry (p :: d) k v = (k, v) :: d.map (fun q => if q.1 == k then (k, v) else q) := by
  have h : (p :: d).any (fun q => q.1 == k) = true := by simp [hp]
  simp [updateEntry, h, hp]

theorem lookup_map_replace_ne {β : Type} (d : List (String × β)) (k k' : String) (v : β)
    (h : k' ≠ k) :
    (d.map (fun q => if q.1 = k then (k, v) else q)).lookup k' = d.lookup k' := by
  induction d with
  | nil => simp
  | cons q d ih =>
    obtain ⟨a, b⟩ := q
    by_cases hq : a = k
    · have hk' : k' ≠ a := by rw [hq]; exact h
      simpa [List.lookup_cons, hq, beq_eq_false_iff_ne.mpr h, beq_eq_false_iff_ne.mpr hk']
        using ih
    · by_cases hq' : k' = a
      · simp [List.lookup_cons, hq, hq']
      · simpa [List.lookup_cons, hq, beq_eq_false_iff_ne.mpr hq'] using ih

theorem lookup_updateEntry_self {β : Type} (d : List (String × β)) (k : String) (v : β) :
    (updateEntry d k v).lookup k = some v := by
  induction d with
  | nil => simp [updateEntry]
  | cons p d ih =>
    obtain ⟨a, b⟩ := p
    by_cases hp : a = k
    · rw [updateEntry_cons_eq (a, b) d k v hp]
      simp [List.lookup_cons]
    · rw [updateEntry_cons_ne (a, b) d k v hp]
      simpa [List.lookup_cons, beq_eq_false_iff_ne.mpr (Ne.symm hp)] using ih

theorem lookup_updateEntry_ne {β : Type} (d : List (String × β)) (k k' : String) (v : β)
    (h : k' ≠ k) : (updateEntry d k v).lookup k' = d.lookup k' := by
  induction d with
  | nil => simp [updateEntry, List.lookup_cons, beq_eq_false_iff_ne.mpr h]
  | cons p d ih =>
    obtain ⟨a, b⟩ := p
    by_cases hp : a = k
    · have hk' : k' ≠ a := by rw [hp]; exact h
      rw [updateEntry_cons_eq (a, b) d k v hp]
      simp [List.lookup_cons, beq_eq_false_iff_ne.mpr h, beq_eq_false_iff_ne.mpr hk',
        lookup_map_replace_ne d k k' v h]
    · rw [updateEntry_cons_ne (a, b) d k v hp]
      by_cases hp' : k' = a
      · simp [List.lookup_cons, hp']
      · simpa [List.lookup_cons, beq_eq_false_iff_ne.mpr hp'] using ih

theorem updateEntry_of_not_mem {β : Type} (d : List (String × β)) (k : String) (v : β)
    (h : ∀ p ∈ d, p.1 ≠ k) : updateEntry d k v = d ++ [(k, v)] := by
  unfold updateEntry
  have : d.any (fun p => p.1 == k) = false := by
    simp only [List.any_eq_false, beq_iff_eq]
    exact h
  simp [this]

/-! ## `rowDict` characterization -/

theorem rowDict_eq_aux (headers cells : List String) :
    rowDict headers cells = rowDictAux [] headers cells := by
  unfold rowDict
  suffices h : ∀ (hs cs : List String) (d : Rec),
      (List.range hs.length).foldlM
        (fun d i =>
          match hs.get? i, cs.get? i with
          | some h, some c => some (dictInsert d h c)
          | _, _ => none) d
      = rowDictAux d hs cs by
    exact h headers cells []
  intro hs
  induction hs with
  | nil => intro cs d; simp [rowDictAux]
  | cons h hs ih =>
    intro cs d
    rw [List.length_cons, List.range_succ_eq_map, List.foldlM_cons]
    cases cs with
    | nil => simp [rowDictAux]
    | cons c cs =>
      simp only [List.get?_cons_zero, Option.bind_eq_bind, Option.some_bind,
        List.foldlM_map, Nat.succ_eq_add_one, List.get?_cons_succ]
      exact ih cs (dictInsert d h c)

theorem rowDictAux_eq_none (d : Rec) (hs cs : List String)
    (h : cs.length < hs.length) : rowDictAux d hs cs = none := by
  induction hs generalizing cs d with
  | nil => simp at h
  | cons x hs ih =>
    cases cs with
    | nil => rfl
    | cons c cs =>
      simp only [List.length_cons, Nat.add_lt_add_iff_right] at h
      exact ih (dictInsert d x c) cs h

theorem rowDictAux_eq_some (d : Rec) (hs cs : List String)
    (hn : hs.Nodup) (hfresh : ∀ p ∈ d, p.1 ∉ hs) (hl : hs.length ≤ cs.length) :
    rowDictAux d hs cs = some (d ++ hs.zip cs) := by
  induction hs generalizing cs d with
  | nil => simp [rowDictAux]
  | cons x hs ih =>
    cases cs with
    | nil => simp at hl
    | cons c cs =>
      simp only [List.nodup_cons] at hn
      have hx : ∀ p ∈ d, p.1 ≠ x := fun p hp => by
        have := hfresh p hp
        simp only [List.mem_cons, not_or] at this
        exact this.1
      show rowDictAux (dictInsert d x c) hs cs = _
      rw [show dictInsert d x c = updateEntry d x c from rfl,
        updateEntry_of_not_mem d x c hx]
      rw [ih (d ++ [(x, c)]) cs hn.2 ?_ (by simpa using hl)]
      · simp [List.zip_cons_cons, List.append_assoc]
      · intro p hp
        rcases List.mem_append.mp hp with hp | hp
        · have := hfresh p hp
          simp only [List.mem_cons, not_or] at this
          exact this.2
        · simp only [List.mem_singleton] at hp
          subst hp
          exact hn.1

theorem rowDict_eq_none (headers cells : List String)
    (h : cells.length < headers.length) : rowDict headers cells = none := by
  rw [rowDict_eq_aux]
  exact rowDictAux_eq_none [] headers cells h

theorem rowDict_eq_some (headers cells : List String)
    (hn : headers.Nodup) (hl : headers.length ≤ cells.length) :
    rowDict headers cells = some (headers.zip cells) := by
  rw [rowDict_eq_aux]
  simpa using rowDictAux_eq_some [] headers cells hn (by simp) hl

theorem rowDictAux_isSome_iff (d : Rec) (hs cs : List String) :
    (rowDictAux d hs cs).isSome = true ↔ hs.length ≤ cs.length := by
  induction hs generalizing cs d with
  | nil => simp [rowDictAux]
  | cons x hs ih =>
    cases cs with
    | nil => simp [rowDictAux]
    | cons c cs =>
      show (rowDictAux (dictInsert d x c) hs cs).isSome = true ↔ _
      rw [ih]
      simp

theorem rowDict_isSome_iff (headers cells : List String) :
    (rowDict headers cells).isSome = true ↔ headers.length ≤ cells.length := by
  rw [rowDict_eq_aux]
  exact rowDictAux_isSome_iff [] headers cells

/-! ## Option-valued traversal helpers -/

theorem mapM_option_isSome {α β : Type} (f : α → Option β) (l : List α) :
    (l.mapM f).isSome = true ↔ ∀ a ∈ l, (f a).isSome = true := by
  induction l with
  | nil => rw [List.mapM_nil]; simp [Option.pure_def]
  | cons a l ih =>
    rw [List.mapM_cons]
    cases hfa : f a <;> cases hml : l.mapM f <;>
      simp_all

theorem mem_of_mapM_option {α β : Type} (f : α → Option β) :
    ∀ (l : List α) (out : List β), l.mapM f = some out → ∀ b ∈ out, ∃ a ∈ l, f a = some b := by
  intro l
  induction l with
  | nil =>
    intro out h b hb
    simp only [List.mapM_nil, Option.pure_def, Option.some.injEq] at h
    subst h
    simp at hb
  | cons a l ih =>
    intro out h b hb
    rw [List.mapM_cons] at h
    cases hfa : f a with
    | none => rw [hfa] at h; simp at h
    | some b0 =>
      rw [hfa] at h
      cases hml : l.mapM f with
      | none => rw [hml] at h; simp at h
      | some bs =>
        rw [hml] at h
        simp only [Option.bind_eq_bind, Option.some_bind, Option.pure_def,
          Option.some.injEq] at h
        subst h
        rcases List.mem_cons.mp hb with rfl | hb'
        · exact ⟨a, List.mem_cons_self a l, hfa⟩
        · obtain ⟨a', ha', hfa'⟩ := ih bs hml b hb'
          exact ⟨a', List.mem_cons_of_mem a ha', hfa'⟩

theorem length_filterMap_eq_filter {α β : Type} (f : α → Option β) (p : α → Bool) (l : List α)
    (h : ∀ a ∈ l, (f a).isSome = p a) :
    (l.filterMap f).length = (l.filter p).length := by
  induction l with
  | nil => rfl
  | cons a l ih =>
    have ha := h a (List.mem_cons_self a l)
    have ih' := ih (fun a ha' => h a (List.mem_cons_of_mem _ ha'))
    cases hfa : f a with
    | none =>
      rw [hfa] at ha
      simp only [Option.isSome_none] at ha
      simp [List.filterMap_cons, hfa, List.filter_cons, ← ha, ih']
    | some b =>
      rw [hfa] at ha
      simp only [Option.isSome_some] at ha
      simp [List.filterMap_cons, hfa, List.filter_cons, ← ha, ih']

theorem foldl_append_eq_flatten {α β : Type} (f : α → List β) (l : List α) (init : List β) :
    l.foldl (fun acc a => acc ++ f a) init = init ++ (l.map f).flatten := by
  induction l generalizing init with
  | nil => simp
  | cons a l ih => simp [List.foldl_cons, ih, List.append_assoc]

theorem foldl_append_singleton {α β : Type} (g : α → β) (l : List α) (init : List β) :
    l.foldl (fun acc a => acc ++ [g a]) init = init ++ l.map g := by
  induction l generalizing init with
  | nil => simp
  | cons a l ih => simp [List.foldl_cons, ih]

/-! ## Extraction lemmas -/

theorem buildRecord_isSome_iff (headers : List String) (w u ti : String) (tds : List String) :
    (buildRecord headers w u ti tds).isSome = true ↔ headers.length ≤ tds.length := by
  unfold buildRecord
  rw [Option.isSome_map', rowDict_isSome_iff]
  simp

theorem buildRecord_eq_none_iff (headers : List String) (w u ti : String) (tds : List String) :
    buildRecord headers w u ti tds = none ↔ tds.length < headers.length := by
  rw [← Option.not_isSome_iff_eq_none, buildRecord_isSome_iff]
  omega

theorem buildRecord_lookup (headers : List String) (w u ti : String) (tds : List String)
    (r : Rec) (h : buildRecord headers w u ti tds = some r) :
    r.lookup "week_info" = some w ∧ r.lookup "source_url" = some u ∧
    r.lookup "table_title" = some ti := by
  unfold buildRecord at h
  cases hrd : rowDict headers (tds.map pyStrip) with
  | none => rw [hrd] at h; simp at h
  | some d =>
    rw [hrd] at h
    simp only [Option.map_some', Option.some.injEq] at h
    subst h
    unfold addSynthetics dictInsert
    refine ⟨?_, ?_, ?_⟩
    · rw [lookup_updateEntry_ne _ _ _ _ (by decide), lookup_updateEntry_ne _ _ _ _ (by decide),
        lookup_updateEntry_self]
    · rw [lookup_updateEntry_ne _ _ _ _ (by decide), lookup_updateEntry_self]
    · rw [lookup_updateEntry_self]

theorem processTable_v10_rows (w u : String) (rt : RawTable) :
    (processTable_v10 w u rt).rows
      = (rt.trs.drop 1).filterMap
          (fun tds => buildRecord (rt.ths.map pyStrip) w u (tableTitle rt) tds) := rfl

theorem processTable_v10_title (w u : String) (rt : RawTable) :
    (processTable_v10 w u rt).table_title = tableTitle rt := rfl

theorem processTable_v11_eq (w u : String) (rt : RawTable) :
    processTable_v11 w u rt
      = ((rt.trs.drop 1).mapM
          (fun tds => buildRecord (rt.ths.map pyStrip) w u (tableTitle rt) tds)).map
          (fun table_data =>
            { headers := rt.ths.map pyStrip ++ ["week_info", "source_url", "table_title"]
              rows := table_data
              table_title := tableTitle rt }) := rfl

theorem processTable_v11_isSome_iff (w u : String) (rt : RawTable) :
    (processTable_v11 w u rt).isSome = true ↔
      ∀ tds ∈ rt.trs.drop 1, rt.ths.length ≤ tds.length := by
  rw [processTable_v11_eq, Option.isSome_map', mapM_option_isSome]
  constructor
  · intro h tds htds
    have := h tds htds
    rw [buildRecord_isSome_iff] at this
    simpa using this
  · intro h tds htds
    rw [buildRecord_isSome_iff]
    simpa using h tds htds

theorem processTable_v11_some (w u : String) (rt : RawTable) (tbl : PyTable)
    (h : processTable_v11 w u rt = some tbl) :
    tbl.table_title = tableTitle rt ∧
    ∀ r ∈ tbl.rows, ∃ tds ∈ rt.trs.drop 1,
      buildRecord (rt.ths.map pyStrip) w u (tableTitle rt) tds = some r := by
  rw [processTable_v11_eq, Option.map_eq_some'] at h
  obtain ⟨table_data, hm, htbl⟩ := h
  subst htbl
  exact ⟨rfl, fun r hr => mem_of_mapM_option _ _ _ hm r hr⟩

theorem extract_tables_v10_eq (doc : Doc) (url : String) :
    extract_tables_v10 doc url
      = (doc.divs.map (fun d => d.tables.map (processTable_v10 (weekLabel d) url))).flatten := by
  unfold extract_tables_v10
  rw [foldl_append_eq_flatten]
  simp

theorem extract_tables_v11_eq (doc : Doc) (url : String) :
    extract_tables_v11 doc url
      = (doc.divs.map (fun d => d.tables.filterMap (processTable_v11 (weekLabel d) url))).flatten := by
  unfold extract_tables_v11
  rw [foldl_append_eq_flatten]
  simp

theorem mem_extract_tables_v11 (doc : Doc) (url : String) (t : PyTable) :
    t ∈ extract_tables_v11 doc url ↔
      ∃ d ∈ doc.divs, ∃ rt ∈ d.tables, processTable_v11 (weekLabel d) url rt = some t := by
  rw [extract_tables_v11_eq]
  simp [List.mem_flatten, List.mem_filterMap]

/-! ## Writer lemmas -/

theorem zip_keys_values (l : Rec) : (l.map Prod.fst).zip (l.map Prod.snd) = l := by
  induction l with
  | nil => rfl
  | cons p l ih => simp [List.zip_cons_cons, ih]

theorem addKeysFold_of_subset (cols : List String) (r : Rec)
    (h : ∀ p ∈ r, p.1 ∈ cols) :
    r.foldl (fun cs p => if cs.contains p.1 then cs else cs ++ [p.1]) cols = cols := by
  induction r with
  | nil => rfl
  | cons p r ih =>
    rw [List.foldl_cons, if_pos (by simpa using h p (List.mem_cons_self p r))]
    exact ih (fun q hq => h q (List.mem_cons_of_mem _ hq))

theorem addKeysFold_of_fresh (cols : List String) (r : Rec)
    (hn : (r.map Prod.fst).Nodup) (hf : ∀ p ∈ r, p.1 ∉ cols) :
    r.foldl (fun cs p => if cs.contains p.1 then cs else cs ++ [p.1]) cols
      = cols ++ r.map Prod.fst := by
  induction r generalizing cols with
  | nil => simp
  | cons p r ih =>
    simp only [List.map_cons, List.nodup_cons] at hn
    rw [List.foldl_cons, if_neg (by simpa using hf p (List.mem_cons_self p r))]
    rw [ih (cols ++ [p.1]) hn.2 ?_]
    · simp
    · intro q hq
      have h1 : q.1 ∉ cols := hf q (List.mem_cons_of_mem _ hq)
      have h2 : q.1 ≠ p.1 := by
        intro he
        exact hn.1 (he ▸ List.mem_map_of_mem Prod.fst hq)
      simp [List.mem_append, h1, h2]

theorem dfColumns_uniform (K : List String) (rows : List Rec)
    (hne : rows ≠ []) (hn : K.Nodup) (hK : ∀ r ∈ rows, r.map Prod.fst = K) :
    dfColumns rows = K := by
  cases rows with
  | nil => exact absurd rfl hne
  | cons r0 rest =>
    have hr0 : r0.map Prod.fst = K := hK r0 (List.mem_cons_self r0 rest)
    unfold dfColumns
    rw [List.foldl_cons]
    have hfirst : r0.foldl (fun cs p => if cs.contains p.1 then cs else cs ++ [p.1]) [] = K := by
      rw [addKeysFold_of_fresh [] r0 (hr0 ▸ hn) (fun p _ => List.not_mem_nil _), hr0]
      simp
    rw [hfirst]
    have : ∀ rs : List Rec, (∀ r ∈ rs, r.map Prod.fst = K) →
        rs.foldl (fun cols r =>
          r.foldl (fun cs p => if cs.contains p.1 then cs else cs ++ [p.1]) cols) K = K := by
      intro rs
      induction rs with
      | nil => intro _; rfl
      | cons r rs ih =>
        intro h
        rw [List.foldl_cons, addKeysFold_of_subset K r ?_]
        · exact ih (fun q hq => h q (List.mem_cons_of_mem _ hq))
        · intro p hp
          exact (h r (List.mem_cons_self r rs)) ▸ List.mem_map_of_mem Prod.fst hp
    exact this rest (fun r hr => hK r (List.mem_cons_of_mem _ hr))

theorem row_values_of_keys (r : Rec) (hn : (r.map Prod.fst).Nodup) :
    (r.map Prod.fst).map (fun c => (r.lookup c).getD "") = r.map Prod.snd := by
  induction r with
  | nil => rfl
  | cons p r ih =>
    obtain ⟨a, b⟩ := p
    simp only [List.map_cons, List.nodup_cons] at hn
    simp only [List.map_cons]
    have h1 : (List.lookup a ((a, b) :: r)).getD "" = b := by simp [List.lookup_cons]
    have h2 : List.map (fun c => (List.lookup c ((a, b) :: r)).getD "") (r.map Prod.fst)
        = List.map (fun c => (List.lookup c r).getD "") (r.map Prod.fst) := by
      refine List.map_congr_left ?_
      intro c hc
      have hca : c ≠ a := fun he => hn.1 (he ▸ hc)
      simp [List.lookup_cons, beq_eq_false_iff_ne.mpr hca]
    rw [h1, h2, ih hn.2]

theorem parse_to_csv_roundtrip (K : List String) (rows : List Rec)
    (hne : rows ≠ []) (hn : K.Nodup) (hK : ∀ r ∈ rows, r.map Prod.fst = K) :
    parse_csv (to_csv rows) = some (K, rows) := by
  unfold to_csv parse_csv
  rw [dfColumns_uniform K rows hne hn hK]
  simp only [Option.some.injEq, Prod.mk.injEq, true_and]
  rw [List.map_map]
  refine List.map_congr_left ?_ |>.trans (List.map_id rows)
  intro r hr
  have hkeys : r.map Prod.fst = K := hK r hr
  show K.zip (K.map fun c => (r.lookup c).getD "") = r
  rw [← hkeys, row_values_of_keys r (hkeys ▸ hn), zip_keys_values]

/-! ## Archive-manager lemmas -/

theorem removal_step (prev : List (String × CSV)) (q : String × CSV) :
    (if prev.any (fun r => r.1 == q.1) then prev.filter (fun r => r.1 != q.1) else prev)
      = prev.filter (fun r => r.1 != q.1) := by
  split
  · rfl
  · rename_i h
    symm
    rw [List.filter_eq_self]
    intro a ha
    simp only [List.any_eq_true, beq_iff_eq, not_exists, not_and] at h
    simpa using h a ha

theorem removal_pass (cur prev : List (String × CSV)) :
    cur.foldl
      (fun p q => if p.any (fun r => r.1 == q.1) then p.filter (fun r => r.1 != q.1) else p)
      prev
      = prev.filter (fun r => !((cur.map Prod.fst).contains r.1)) := by
  induction cur generalizing prev with
  | nil =>
    rw [List.foldl_nil]
    symm
    rw [List.filter_eq_self]
    intro a _
    simp
  | cons q cur ih =>
    rw [List.foldl_cons, removal_step, ih, List.filter_filter]
    refine List.filter_congr ?_
    intro a _
    simp [List.contains_cons, Bool.not_or, Bool.and_comm, bne]

theorem filter_ne_getLast (l : List (String × CSV)) (h : l ≠ [])
    (hn : (l.map Prod.fst).Nodup) :
    l.filter (fun r => r.1 != (l.getLast h).1) = l.dropLast := by
  obtain ⟨init, last, rfl⟩ : ∃ init last, l = init ++ [last] :=
    ⟨l.dropLast, l.getLast h, (List.dropLast_append_getLast h).symm⟩
  rw [List.getLast_concat, List.filter_append, List.dropLast_concat]
  have hlast : List.filter (fun r => r.1 != last.1) [last] = [] := by
    simp [List.filter_cons]
  rw [hlast, List.append_nil]
  rw [List.filter_eq_self]
  intro a ha
  rw [List.map_append, List.nodup_append] at hn
  have : a.1 ∉ [last].map Prod.fst := hn.2.2 (List.mem_map_of_mem Prod.fst ha)
  simp only [List.map_cons, List.map_nil, List.mem_singleton] at this
  simpa using this

/-! ## Writer-loop characterizations -/

theorem save_tables_v10_eq (tables : List PyTable) :
    save_tables_v10 tables
      = { files := tables.enum.map
            (fun it => ("table_" ++ toString (it.1 + 1) ++ ".csv", to_csv it.2.rows)),
          saved_count := tables.length,
          ret := none } := by
  unfold save_tables_v10
  suffices h : ∀ (l : List (Nat × PyTable)) (init : List (String × CSV) × Nat),
      l.foldl
        (fun acc it =>
          (acc.1 ++ [("table_" ++ toString (it.1 + 1) ++ ".csv", to_csv it.2.rows)],
           acc.2 + 1)) init
        = (init.1 ++ l.map (fun it => ("table_" ++ toString (it.1 + 1) ++ ".csv", to_csv it.2.rows)),
           init.2 + l.length) by
    rw [h]
    simp [List.enum_length]
  intro l
  induction l with
  | nil => intro init; simp
  | cons a l ih =>
    intro init
    rw [List.foldl_cons, ih]
    simp [List.append_assoc]
    omega

theorem save_tables_v11_eq (tables : List PyTable) :
    save_tables_v11 tables
      = tables.enum.map
          (fun it => ("table_" ++ toString (it.1 + 1) ++ ".csv", to_csv it.2.rows)) := by
  unfold save_tables_v11
  rw [foldl_append_singleton]
  simp

theorem save_tables_v11_rows_only (tables₁ tables₂ : List PyTable)
    (h : tables₁.map (fun t => t.rows) = tables₂.map (fun t => t.rows)) :
    save_tables_v11 tables₁ = save_tables_v11 tables₂ := by
  have key : ∀ (tables : List PyTable),
      save_tables_v11 tables
        = (tables.map (fun t => t.rows)).enum.map
            (fun it => ("table_" ++ toString (it.1 + 1) ++ ".csv", to_csv it.2)) := by
    intro tables
    rw [save_tables_v11_eq, List.enum_map, List.map_map]
    refine List.map_congr_left ?_
    intro it _
    cases it
    rfl
  rw [key, key, h]

theorem enum_map_snd_comp {α β : Type} (l : List α) (F : α → β) :
    l.enum.map (fun it => F it.2) = l.map F := by
  rw [show (fun it : Nat × α => F it.2) = F ∘ Prod.snd from rfl, ← List.map_map,
    List.enum_map_snd]

/-! ## Claim theorems -/

/-- C3: when the `current` slot is non-empty, `manage_output_folders` first
removes from `previous` every entry whose name also occurs in `current`, and
then moves exactly one entry — the last one enumerated from `current` — into
`previous`; every other entry of `current` stays in place. -/
theorem C3_rotate_moves_only_last (cur prev : List (String × CSV)) (h : cur ≠ [])
    (hn : (cur.map Prod.fst).Nodup) :
    (manage_output_folders ⟨some cur, some prev⟩).previous
      = some (prev.filter (fun q => !((cur.map Prod.fst).contains q.1)) ++ [cur.getLast h]) ∧
    (manage_output_folders ⟨some cur, some prev⟩).current = some cur.dropLast := by
  cases cur with
  | nil => exact absurd rfl h
  | cons e es =>
    unfold manage_output_folders
    simp only [Option.getD_some]
    refine ⟨?_, ?_⟩
    · show some ((e :: es).foldl _ prev ++ [(e :: es).getLast _]) = _
      rw [removal_pass]
    · show some ((e :: es).filter _) = _
      rw [filter_ne_getLast (e :: es) (List.cons_ne_nil e es) hn]

theorem C3_rotate_moves_only_last_witness :
    (manage_output_folders
       ⟨some [("a", [["1"]]), ("b", [["2"]])],
        some [("b", [["old"]]), ("c", [["keep"]])]⟩).previous
      = some [("c", [["keep"]]), ("b", [["2"]])] ∧
    (manage_output_folders
       ⟨some [("a", [["1"]]), ("b", [["2"]])],
        some [("b", [["old"]]), ("c", [["keep"]])]⟩).current
      = some [("a", [["1"]])] := by
  have h := C3_rotate_moves_only_last [("a", [["1"]]), ("b", [["2"]])]
    [("b", [["old"]]), ("c", [["keep"]])] (by decide) (by decide)
  exact ⟨h.1.trans (by decide), h.2.trans (by decide)⟩

/-- C10: when the `current` slot is empty (or does not exist yet),
`manage_output_folders` creates both slot directories if absent and changes
nothing else: no file is moved, deleted, or modified, and an existing
`previous` slot keeps exactly its prior contents. -/
theorem C10_rotate_empty_current (fs : FS)
    (h : fs.current = none ∨ fs.current = some []) :
    manage_output_folders fs = { current := some [], previous := some (fs.previous.getD []) } ∧
    ∀ p, fs.previous = some p → (manage_output_folders fs).previous = some p := by
  obtain ⟨c, p⟩ := fs
  have hres : manage_output_folders ⟨c, p⟩
      = { current := some [], previous := some (p.getD []) } := by
    rcases h with h | h <;>
      (simp only at h; subst h; rfl)
  refine ⟨hres, ?_⟩
  intro p' hp'
  simp only at hp'
  subst hp'
  rw [hres]
  rfl

theorem C10_rotate_empty_current_witness :
    manage_output_folders ⟨none, some [("c", [["keep"]])]⟩
      = { current := some [], previous := some [("c", [["keep"]])] } :=
  (C10_rotate_empty_current ⟨none, some [("c", [["keep"]])]⟩ (Or.inl rfl)).1.trans (by decide)

/-- C5: when the container selector matches nothing on the root page,
`get_latest_month_url` returns `None` (no exception), and `main` then ends the
run at once: no page is fetched, the archive slots are untouched, and zero
output files are written. -/
theorem C5_container_not_found_clean (root : RootDoc) (fetch : String → Doc) (fs : FS)
    (h : root.container = none) :
    get_latest_month_url root = none ∧
    main_run root fetch fs = { files := [], fs := fs } := by
  have h1 : get_latest_month_url root = none := by
    unfold get_latest_month_url
    rw [h]
  refine ⟨h1, ?_⟩
  unfold main_run
  rw [h1]

theorem C5_container_not_found_clean_witness :
    get_latest_month_url ⟨none⟩ = none ∧
    main_run ⟨none⟩ (fun _ => ⟨[]⟩) ⟨none, none⟩
      = { files := [], fs := ⟨none, none⟩ } :=
  C5_container_not_found_clean ⟨none⟩ (fun _ => ⟨[]⟩) ⟨none, none⟩ rfl

/-- C4 counterexample: with one table, `save_tables` (v10) writes it and
counts it (`saved_count = 1`), yet the function's value is `None` — it does
not return the count of tables written, contrary to the claim. -/
theorem C4_save_returns_none_cex :
    (save_tables_v10 [{ headers := ["A", "week_info", "source_url", "table_title"],
                        rows := [[("A", "x")]], table_title := "T" }]).saved_count = 1 ∧
    (save_tables_v10 [{ headers := ["A", "week_info", "source_url", "table_title"],
                        rows := [[("A", "x")]], table_title := "T" }]).ret = none := by
  decide

/-- C4 amended: `save_tables` in v10 computes the count of tables successfully
written (equal to the number of files produced, which in a healthy filesystem
is the total attempted) and logs it, but it returns `None`; the caller cannot
detect partial success from the return value. (v11 does not even track a
count.) -/
theorem C4_save_count_logged_not_returned (tables : List PyTable) :
    (save_tables_v10 tables).saved_count = (save_tables_v10 tables).files.length ∧
    (save_tables_v10 tables).files.length = tables.length ∧
    (save_tables_v10 tables).ret = none := by
  rw [save_tables_v10_eq]
  simp [List.enum_length]

/-- C9: the writer derives each file solely from the record mappings — two
snapshots with the same record lists produce identical files whatever their
declared column lists are — and a table with no records is written as a
single empty line: no column names appear in the file. -/
theorem C9_writer_ignores_declared_columns (tables₁ tables₂ : List PyTable)
    (h : tables₁.map (fun t => t.rows) = tables₂.map (fun t => t.rows)) :
    save_tables_v11 tables₁ = save_tables_v11 tables₂ ∧
    ∀ t ∈ tables₁, t.rows = [] → to_csv t.rows = [[]] := by
  refine ⟨save_tables_v11_rows_only tables₁ tables₂ h, ?_⟩
  intro t _ hrows
  rw [hrows]
  rfl

theorem C9_writer_ignores_declared_columns_witness :
    save_tables_v11 [{ headers := ["A", "B"], rows := [], table_title := "T" }]
      = save_tables_v11 [{ headers := ["C"], rows := [], table_title := "U" }] ∧
    to_csv ([] : List Rec) = [[]] := by
  have h := C9_writer_ignores_declared_columns
    [{ headers := ["A", "B"], rows := [], table_title := "T" }]
    [{ headers := ["C"], rows := [], table_title := "U" }] (by decide)
  exact ⟨h.1, h.2 { headers := ["A", "B"], rows := [], table_title := "T" } (by decide) rfl⟩

/-- C7: every record produced by extraction carries the three synthetic
columns, valued with the label of its own enclosing section div, the source
URL passed to `extract_tables`, and the table's title. Extraction processes
the tables of a div `d` with `weekLabel d`; every table so produced from `d`
sits in the snapshot (v11) and each of its records has `week_info` equal to
exactly that enclosing div's label, `source_url` equal to the URL, and
`table_title` equal to the table's own title; likewise for every record v10
produces from a table of `d`. -/
theorem C7_synthetic_columns (doc : Doc) (url : String) (d : RnsubDiv) (hd : d ∈ doc.divs)
    (rt : RawTable) (hrt : rt ∈ d.tables) :
    (∀ t, processTable_v11 (weekLabel d) url rt = some t →
      t ∈ extract_tables_v11 doc url ∧
      ∀ r ∈ t.rows,
        r.lookup "week_info" = some (weekLabel d) ∧
        r.lookup "source_url" = some url ∧
        r.lookup "table_title" = some t.table_title) ∧
    (∀ r ∈ (processTable_v10 (weekLabel d) url rt).rows,
      r.lookup "week_info" = some (weekLabel d) ∧
      r.lookup "source_url" = some url ∧
      r.lookup "table_title" = some (processTable_v10 (weekLabel d) url rt).table_title) := by
  constructor
  · intro t ht
    refine ⟨(mem_extract_tables_v11 doc url t).mpr ⟨d, hd, rt, hrt, ht⟩, ?_⟩
    intro r hr
    obtain ⟨htitle, hrows⟩ := processTable_v11_some _ _ _ _ ht
    obtain ⟨tds, htds, hbr⟩ := hrows r hr
    obtain ⟨hw, hu, hti⟩ := buildRecord_lookup _ _ _ _ _ _ hbr
    exact ⟨hw, hu, by rw [htitle]; exact hti⟩
  · intro r hr
    rw [processTable_v10_rows, List.mem_filterMap] at hr
    obtain ⟨tds, htds, hbr⟩ := hr
    obtain ⟨hw, hu, hti⟩ := buildRecord_lookup _ _ _ _ _ _ hbr
    exact ⟨hw, hu, by rw [processTable_v10_title]; exact hti⟩

theorem C7_synthetic_columns_witness :
    ({ headers := ["week_info", "source_url", "table_title"],
       rows := [[("week_info", "Unknown Week"), ("source_url", "u"),
                 ("table_title", "Untitled Table")]],
       table_title := "Untitled Table" } : PyTable) ∈
      extract_tables_v11 ⟨[⟨none, [⟨none, [], [["h"], []]⟩]⟩]⟩ "u" ∧
    ([("week_info", "Unknown Week"), ("source_url", "u"), ("table_title", "Untitled Table")] :
        Rec).lookup "week_info" = some (weekLabel ⟨none, [⟨none, [], [["h"], []]⟩]⟩) ∧
    ([("week_info", "Unknown Week"), ("source_url", "u"), ("table_title", "Untitled Table")] :
        Rec).lookup "source_url" = some "u" ∧
    ([("week_info", "Unknown Week"), ("source_url", "u"), ("table_title", "Untitled Table")] :
        Rec).lookup "table_title"
      = some ({ headers := ["week_info", "source_url", "table_title"],
                rows := [[("week_info", "Unknown Week"), ("source_url", "u"),
                          ("table_title", "Untitled Table")]],
                table_title := "Untitled Table" } : PyTable).table_title := by
  have h := (C7_synthetic_columns ⟨[⟨none, [⟨none, [], [["h"], []]⟩]⟩]⟩ "u"
    ⟨none, [⟨none, [], [["h"], []]⟩]⟩ (by decide) ⟨none, [], [["h"], []]⟩ (by decide)).1
    { headers := ["week_info", "source_url", "table_title"],
      rows := [[("week_info", "Unknown Week"), ("source_url", "u"),
                ("table_title", "Untitled Table")]],
      table_title := "Untitled Table" } (by decide)
  exact ⟨h.1, h.2 [("week_info", "Unknown Week"), ("source_url", "u"),
    ("table_title", "Untitled Table")] (by decide)⟩

/-- C8: a table with no preceding level-2 heading gets the sentinel title
"Untitled Table", and a section div with no `AlmaRNTag` span gets the
sentinel label "Unknown Week" — carried into every extracted record's
`week_info` field. -/
theorem C8_fallback_sentinels (u : String) (d : RnsubDiv) (rt : RawTable)
    (h1 : rt.prevH2 = none) (h2 : d.tagSpan = none) :
    weekLabel d = "Unknown Week" ∧
    (processTable_v10 (weekLabel d) u rt).table_title = "Untitled Table" ∧
    (∀ tbl, processTable_v11 (weekLabel d) u rt = some tbl →
      tbl.table_title = "Untitled Table") ∧
    (∀ r ∈ (processTable_v10 (weekLabel d) u rt).rows,
      r.lookup "week_info" = some "Unknown Week") := by
  have hw : weekLabel d = "Unknown Week" := by unfold weekLabel; rw [h2]
  have hti : tableTitle rt = "Untitled Table" := by unfold tableTitle; rw [h1]
  refine ⟨hw, ?_, ?_, ?_⟩
  · rw [processTable_v10_title, hti]
  · intro tbl htbl
    rw [(processTable_v11_some _ _ _ _ htbl).1, hti]
  · intro r hr
    rw [processTable_v10_rows, List.mem_filterMap] at hr
    obtain ⟨tds, _, hbr⟩ := hr
    have hlook := (buildRecord_lookup _ _ _ _ _ _ hbr).1
    rw [hw] at hlook
    exact hlook

theorem C8_fallback_sentinels_witness :
    weekLabel ⟨none, []⟩ = "Unknown Week" ∧
    (processTable_v10 (weekLabel ⟨none, []⟩) "u" ⟨none, ["A"], [["h"], ["x"]]⟩).table_title
      = "Untitled Table" := by
  have h := C8_fallback_sentinels "u" ⟨none, []⟩ ⟨none, ["A"], [["h"], ["x"]]⟩ rfl rfl
  exact ⟨h.1, h.2.1⟩

/-- C1 counterexample: headers ["A", "B"] (H = 2) and a single data row with
one cell. The claim predicts a record with one user-visible field and the row
kept; instead the dict comprehension raises IndexError, so v10 produces the
table with no record at all (the row is lost) and v11 drops the whole
table. -/
theorem C1_short_row_cex :
    (extract_tables_v10 ⟨[⟨none, [⟨none, ["A", "B"], [["h"], ["x"]]⟩]⟩]⟩ "u").map
        (fun t => t.rows) = [[]] ∧
    extract_tables_v11 ⟨[⟨none, [⟨none, ["A", "B"], [["h"], ["x"]]⟩]⟩]⟩ "u" = [] := by
  decide

/-- C1 amended: a data row with fewer cells than headers makes the record
comprehension fail (IndexError), so no record is produced for it: in v10 that
row alone is dropped — the table's records are exactly those of the rows with
at least H cells — while in v11 the presence of any such row drops the whole
table. -/
theorem C1_short_row_amended (w u : String) (rt : RawTable) :
    (∀ tds ∈ rt.trs.drop 1, tds.length < rt.ths.length →
      buildRecord (rt.ths.map pyStrip) w u (tableTitle rt) tds = none) ∧
    (processTable_v10 w u rt).rows.length
      = ((rt.trs.drop 1).filter (fun tds => decide (rt.ths.length ≤ tds.length))).length ∧
    ((∃ tds ∈ rt.trs.drop 1, tds.length < rt.ths.length) →
      processTable_v11 w u rt = none) := by
  refine ⟨?_, ?_, ?_⟩
  · intro tds _ hlen
    rw [buildRecord_eq_none_iff]
    simpa using hlen
  · rw [processTable_v10_rows]
    refine length_filterMap_eq_filter _ _ _ ?_
    intro tds _
    rw [Bool.eq_iff_iff, buildRecord_isSome_iff]
    simp
  · intro ⟨tds, htds, hlen⟩
    rw [← Option.not_isSome_iff_eq_none, processTable_v11_isSome_iff]
    intro hall
    exact absurd (hall tds htds) (by omega)

theorem C1_short_row_amended_witness :
    buildRecord (["A", "B"].map pyStrip) "w" "u"
        (tableTitle ⟨none, ["A", "B"], [["h"], ["x"]]⟩) ["x"] = none ∧
    (processTable_v10 "w" "u" ⟨none, ["A", "B"], [["h"], ["x"]]⟩).rows.length = 0 ∧
    processTable_v11 "w" "u" ⟨none, ["A", "B"], [["h"], ["x"]]⟩ = none := by
  have h := C1_short_row_amended "w" "u" ⟨none, ["A", "B"], [["h"], ["x"]]⟩
  refine ⟨h.1 ["x"] (by decide) (by decide), ?_, h.2.2 ⟨["x"], by decide, by decide⟩⟩
  rw [h.2.1]
  decide

/-- C2 counterexample: one table with headers ["A"] and data rows [] (zero
cells, fails) and ["x"] (processable). In v11 the row failure is not caught
at row granularity: the whole table is missing from the result, while v10
keeps the table with the one good record. -/
theorem C2_row_error_cex :
    extract_tables_v11 ⟨[⟨none, [⟨none, ["A"], [["h"], [], ["x"]]⟩]⟩]⟩ "u" = [] ∧
    (extract_tables_v10 ⟨[⟨none, [⟨none, ["A"], [["h"], [], ["x"]]⟩]⟩]⟩ "u").map
        (fun t => t.rows.length) = [1] := by
  decide

/-- C2 amended: in v10 a row failure is caught at row granularity, so every
table of every section appears in the result; in v11 the error is only caught
at table granularity, so exactly the tables all of whose data rows have at
least as many cells as headers survive — a table with any failing row is
dropped (though other tables and sections continue to be processed). -/
theorem C2_row_error_granularity (doc : Doc) (url : String) :
    (extract_tables_v10 doc url).length = (doc.divs.map (fun d => d.tables.length)).sum ∧
    (extract_tables_v11 doc url).length
      = (doc.divs.map (fun d =>
          (d.tables.filter (fun rt =>
            (rt.trs.drop 1).all (fun tds => decide (rt.ths.length ≤ tds.length)))).length)).sum := by
  constructor
  · rw [extract_tables_v10_eq, List.length_flatten, List.map_map]
    congr 1
    refine List.map_congr_left ?_
    intro d _
    simp
  · rw [extract_tables_v11_eq, List.length_flatten, List.map_map]
    congr 1
    refine List.map_congr_left ?_
    intro d _
    show (d.tables.filterMap _).length = _
    refine length_filterMap_eq_filter _ _ _ ?_
    intro rt _
    rw [Bool.eq_iff_iff, processTable_v11_isSome_iff, List.all_eq_true]
    simp

/-- C6 counterexample: a table whose only row is the header row extracts with
declared columns ["A", "week_info", "source_url", "table_title"] but no
records; the writer then emits a single empty line — the first line of the
file is not the Table's column list. -/
theorem C6_roundtrip_cex :
    (save_tables_v11 (extract_tables_v11 ⟨[⟨none, [⟨none, ["A"], [["h"]]⟩]⟩]⟩ "u")).map
        Prod.snd = [[[]]] ∧
    (extract_tables_v11 ⟨[⟨none, [⟨none, ["A"], [["h"]]⟩]⟩]⟩ "u").map (fun t => t.headers)
      = [["A", "week_info", "source_url", "table_title"]] := by
  decide

/-- C6 amended: for every Table that has at least one Record and whose
records' key sequences equal the Table's duplicate-free declared column list
(which holds for extractor output when the trimmed headers are distinct and
disjoint from the synthetic names), the written file's first line is the
Table's columns in order, each further line is one Record's values in that
order, and re-parsing returns exactly the columns and records; a Table with
no Records instead yields a file with no column line. -/
theorem C6_roundtrip_amended (tables : List PyTable)
    (h : ∀ t ∈ tables, t.rows ≠ [] ∧ t.headers.Nodup ∧
      ∀ r ∈ t.rows, r.map Prod.fst = t.headers) :
    (save_tables_v11 tables).map (fun f => parse_csv f.2)
      = tables.map (fun t => some (t.headers, t.rows)) := by
  rw [save_tables_v11_eq]
  calc ((tables.enum.map
          (fun it => ("table_" ++ toString (it.1 + 1) ++ ".csv", to_csv it.2.rows))).map
            (fun f => parse_csv f.2))
      = tables.enum.map (fun it => parse_csv (to_csv it.2.rows)) := by
        rw [List.map_map]
        rfl
    _ = tables.map (fun t => parse_csv (to_csv t.rows)) :=
        enum_map_snd_comp tables (fun t => parse_csv (to_csv t.rows))
    _ = tables.map (fun t => some (t.headers, t.rows)) :=
        List.map_congr_left (fun t ht =>
          parse_to_csv_roundtrip t.headers t.rows (h t ht).1 (h t ht).2.1 (h t ht).2.2)

theorem C6_roundtrip_amended_witness :
    (save_tables_v11 [{ headers := ["A"], rows := [[("A", "x")]], table_title := "T" }]).map
        (fun f => parse_csv f.2)
      = [some (["A"], [[("A", "x")]])] :=
  C6_roundtrip_amended [{ headers := ["A"], rows := [[("A", "x")]], table_title := "T" }]
    (by decide)

end CKB
